import Mathlib

set_option maxRecDepth 100000

/-!
Verification of the snapshot comparison / diff engine of the oareport-parser
repository (`src/extractors/compare_snapshots.py`).

Modelling conventions:
* Python floats are modelled as exact rationals extended with the IEEE special
  values `+inf`, `-inf` and `nan` (type `PyF`).  Binary rounding error of IEEE
  doubles is abstracted away; `round(x, n)` is round-half-to-even on the exact
  rational, matching Python's documented behaviour on exactly representable
  values.
* A pandas cell is an `Option String`: `none` models a missing value (Python
  `None`); real scraped cells are strings (`gspread.get_all_records` yields
  strings, modelled via their `str()` image).
* A DataFrame is a `Table`: a column list plus rows given as association
  lists from column name to cell.
-/

namespace OAReport

/-! ### Kernel-reducible rational arithmetic

Batteries marks `Rat.add`, `Rat.sub`, `Rat.mul`, `Rat.inv` and `Rat.div`
irreducible, which blocks evaluation of the embedding on concrete inputs by
`decide`.  The embedding therefore computes with the following
constructor-level operations, each proved equal to the corresponding field
operation of `ℚ`. -/

/-- The rational `z / 1`. -/
def qI (z : ℤ) : ℚ := mkRat z 1

/-- Addition on `ℚ` by explicit cross multiplication. -/
def qAdd (a b : ℚ) : ℚ := mkRat (a.num * b.den + b.num * a.den) (a.den * b.den)

/-- Subtraction on `ℚ` by explicit cross multiplication. -/
def qSub (a b : ℚ) : ℚ := mkRat (a.num * b.den - b.num * a.den) (a.den * b.den)

/-- Multiplication on `ℚ` by explicit numerator and denominator products. -/
def qMul (a b : ℚ) : ℚ := mkRat (a.num * b.num) (a.den * b.den)

/-- Division on `ℚ` by explicit cross multiplication (`a / 0 = 0`). -/
def qDiv (a b : ℚ) : ℚ := Rat.divInt (a.num * b.den) (a.den * b.num)

/-- Negation on `ℚ`. -/
def qNeg (a : ℚ) : ℚ := mkRat (-a.num) a.den

theorem qI_eq (z : ℤ) : qI z = (z : ℚ) := by
  simp [qI, Rat.mkRat_eq_div]

theorem qAdd_eq (a b : ℚ) : qAdd a b = a + b := by
  have ha : ((a.den : ℚ)) ≠ 0 := Nat.cast_ne_zero.mpr a.den_pos.ne'
  have hb : ((b.den : ℚ)) ≠ 0 := Nat.cast_ne_zero.mpr b.den_pos.ne'
  rw [qAdd, Rat.mkRat_eq_div, eq_comm]
  push_cast
  conv_lhs => rw [← Rat.num_div_den a, ← Rat.num_div_den b]
  field_simp

theorem qSub_eq (a b : ℚ) : qSub a b = a - b := by
  have ha : ((a.den : ℚ)) ≠ 0 := Nat.cast_ne_zero.mpr a.den_pos.ne'
  have hb : ((b.den : ℚ)) ≠ 0 := Nat.cast_ne_zero.mpr b.den_pos.ne'
  rw [qSub, Rat.mkRat_eq_div, eq_comm]
  push_cast
  conv_lhs => rw [← Rat.num_div_den a, ← Rat.num_div_den b]
  field_simp
  ring

theorem qMul_eq (a b : ℚ) : qMul a b = a * b := by
  have ha : ((a.den : ℚ)) ≠ 0 := Nat.cast_ne_zero.mpr a.den_pos.ne'
  have hb : ((b.den : ℚ)) ≠ 0 := Nat.cast_ne_zero.mpr b.den_pos.ne'
  rw [qMul, Rat.mkRat_eq_div, eq_comm]
  push_cast
  conv_lhs => rw [← Rat.num_div_den a, ← Rat.num_div_den b]
  field_simp

theorem qNeg_eq (a : ℚ) : qNeg a = -a := by
  have ha : ((a.den : ℚ)) ≠ 0 := Nat.cast_ne_zero.mpr a.den_pos.ne'
  rw [qNeg, Rat.mkRat_eq_div, eq_comm]
  push_cast
  conv_lhs => rw [← Rat.num_div_den a]
  field_simp

theorem qDiv_eq (a b : ℚ) : qDiv a b = a / b := by
  rcases eq_or_ne b 0 with rfl | hb
  · simp [qDiv]
  · have ha : ((a.den : ℚ)) ≠ 0 := Nat.cast_ne_zero.mpr a.den_pos.ne'
    have hbd : ((b.den : ℚ)) ≠ 0 := Nat.cast_ne_zero.mpr b.den_pos.ne'
    have hbn : b.num ≠ 0 := Rat.num_ne_zero.mpr hb
    have hbnq : ((b.num : ℚ)) ≠ 0 := Int.cast_ne_zero.mpr hbn
    rw [qDiv, Rat.divInt_eq_div, eq_comm]
    push_cast
    conv_lhs => rw [← Rat.num_div_den a, ← Rat.num_div_den b]
    field_simp

/-- A Python float value: an exact rational or one of the IEEE specials. -/
inductive PyF where
  | fin (q : ℚ)
  | pinf
  | ninf
  | nan
deriving DecidableEq, Repr

namespace PyF

/-- IEEE subtraction on modelled floats (`inf - inf` is `nan`). -/
def sub : PyF → PyF → PyF
  | nan, _ => nan
  | _, nan => nan
  | fin a, fin b => fin (qSub a b)
  | fin _, pinf => ninf
  | fin _, ninf => pinf
  | pinf, fin _ => pinf
  | pinf, ninf => pinf
  | pinf, pinf => nan
  | ninf, fin _ => ninf
  | ninf, pinf => ninf
  | ninf, ninf => nan

/-- IEEE division.  A zero finite divisor raises `ZeroDivisionError` in
    Python; every use in the translated code is guarded so that the divisor is
    nonzero, and the unreachable case is mapped to `nan`. -/
def div : PyF → PyF → PyF
  | nan, _ => nan
  | _, nan => nan
  | fin a, fin b => if b = 0 then nan else fin (qDiv a b)
  | fin _, pinf => fin 0
  | fin _, ninf => fin 0
  | pinf, fin b => if b < 0 then ninf else pinf
  | ninf, fin b => if b < 0 then pinf else ninf
  | pinf, pinf => nan
  | pinf, ninf => nan
  | ninf, pinf => nan
  | ninf, ninf => nan

/-- IEEE multiplication (`0 * inf` is `nan`). -/
def mul : PyF → PyF → PyF
  | nan, _ => nan
  | _, nan => nan
  | fin a, fin b => fin (qMul a b)
  | fin a, pinf => if a = 0 then nan else if a < 0 then ninf else pinf
  | fin a, ninf => if a = 0 then nan else if a < 0 then pinf else ninf
  | pinf, fin b => if b = 0 then nan else if b < 0 then ninf else pinf
  | ninf, fin b => if b = 0 then nan else if b < 0 then pinf else ninf
  | pinf, pinf => pinf
  | pinf, ninf => ninf
  | ninf, pinf => ninf
  | ninf, ninf => pinf

/-- Python `abs` on modelled floats (the conditional form keeps the
    definition kernel-reducible for concrete evaluation). -/
def abs : PyF → PyF
  | fin a => fin (if a < 0 then qNeg a else a)
  | pinf => pinf
  | ninf => pinf
  | nan => nan

/-- Python `<` on modelled floats: every comparison with `nan` is false. -/
def lt : PyF → PyF → Bool
  | nan, _ => false
  | _, nan => false
  | fin a, fin b => decide (a < b)
  | fin _, pinf => true
  | fin _, ninf => false
  | pinf, _ => false
  | ninf, ninf => false
  | ninf, _ => true

/-- Python `<=` on modelled floats: every comparison with `nan` is false. -/
def le : PyF → PyF → Bool
  | nan, _ => false
  | _, nan => false
  | fin a, fin b => decide (a ≤ b)
  | fin _, pinf => true
  | fin _, ninf => false
  | pinf, pinf => true
  | pinf, _ => false
  | ninf, _ => true

end PyF

/-- Round a rational to the nearest integer, ties to the even integer
    (Python's rounding mode). -/
def roundHalfEven (q : ℚ) : ℤ :=
  let n := ⌊q⌋
  let r := qSub q (qI n)
  if r < mkRat 1 2 then n
  else if mkRat 1 2 < r then n + 1
  else if n % 2 = 0 then n else n + 1

/-- Python `round(q, d)` on an exact rational. -/
def pyRound (q : ℚ) (d : ℕ) : ℚ :=
  mkRat (roundHalfEven (qMul q (mkRat (10 ^ d) 1))) (10 ^ d)

/-- Python `round(x, d)` on a modelled float: the specials round to
    themselves (`round(inf, d)` is `inf` when `d` is given). -/
def PyF.roundTo : PyF → ℕ → PyF
  | PyF.fin a, d => PyF.fin (pyRound a d)
  | PyF.pinf, _ => PyF.pinf
  | PyF.ninf, _ => PyF.ninf
  | PyF.nan, _ => PyF.nan

/-- Numeric value of an ASCII digit character. -/
def digitVal (c : Char) : ℕ := c.toNat - 48

/-- Consume a maximal run of decimal digits, permitting a single underscore
    between two digits (Python numeric-literal grouping).  Returns the
    accumulated value, the number of digits consumed, and the rest. -/
def takeDigits : List Char → ℕ → ℕ → ℕ × ℕ × List Char
  | [], acc, k => (acc, k, [])
  | c :: cs, acc, k =>
    if c.isDigit then takeDigits cs (10 * acc + digitVal c) (k + 1)
    else if c = '_' ∧ k ≠ 0 then
      match cs with
      | d :: cs2 =>
        if d.isDigit then takeDigits cs2 (10 * acc + digitVal d) (k + 1)
        else (acc, k, c :: cs)
      | [] => (acc, k, [c])
    else (acc, k, c :: cs)

/-- Parse an optional exponent suffix `(e|E)[+-]?digits` after a parsed
    mantissa; anything left over means the whole literal is invalid. -/
def parseExp (base : ℚ) : List Char → Option ℚ
  | [] => some base
  | c :: r =>
    if c = 'e' ∨ c = 'E' then
      let (sgn, r2) : ℤ × List Char :=
        match r with
        | '+' :: r3 => (1, r3)
        | '-' :: r3 => (-1, r3)
        | r3 => (1, r3)
      let (ep, ek, r4) := takeDigits r2 0 0
      if ek = 0 ∨ r4 ≠ [] then none
      else some (if sgn = 1 then qMul base (mkRat (10 ^ ep) 1)
        else qDiv base (mkRat (10 ^ ep) 1))
    else none

/-- Parse the body of a Python float literal after the optional sign:
    `digits [. digits] [exp]` or `. digits [exp]`. -/
def parseNumBody (l : List Char) : Option ℚ :=
  let (ip, ik, r1) := takeDigits l 0 0
  match r1 with
  | '.' :: r2 =>
    let (fp, fk, r3) := takeDigits r2 0 0
    if ik = 0 ∧ fk = 0 then none
    else parseExp (qAdd (mkRat ip 1) (mkRat fp (10 ^ fk))) r3
  | _ =>
    if ik = 0 then none else parseExp (mkRat ip 1) r1

/-- Model of Python `float(s)`: optional surrounding whitespace, optional
    sign, then a decimal literal or one of the case-insensitive words
    `inf`, `infinity`, `nan`. -/
def pyFloat (s : String) : Option PyF :=
  let l := ((s.toList.dropWhile Char.isWhitespace).reverse.dropWhile Char.isWhitespace).reverse
  let (sgn, body) : ℤ × List Char :=
    match l with
    | '+' :: r => (1, r)
    | '-' :: r => (-1, r)
    | r => (1, r)
  let low := body.map Char.toLower
  if low = ['i', 'n', 'f'] ∨ low = ['i', 'n', 'f', 'i', 'n', 'i', 't', 'y'] then
    some (if sgn = 1 then PyF.pinf else PyF.ninf)
  else if low = ['n', 'a', 'n'] then some PyF.nan
  else
    match parseNumBody body with
    | some q => some (PyF.fin (if sgn = 1 then q else qNeg q))
    | none => none

/-- An output cell of the comparator: a Python float or a passed-through
    string (the `"N/A"` sentinel or a raw value that failed to parse). -/
inductive Val where
  | f (x : PyF)
  | s (t : String)
deriving DecidableEq, Repr

/-- Python `str()` of a cell: a present cell is the string itself; a missing
    cell (`None`) prints as `"None"`. -/
def pyStr : Option String → String
  | some t => t
  | none => "None"

/-- `pd.isna` on a cell: true only for the missing cell. -/
def pdIsna : Option String → Bool
  | some _ => false
  | none => true

/-- Python `s.replace(c, "")` for a one-character pattern: delete every
    occurrence of the character.  (`String.replace` itself is defined by
    well-founded recursion and does not evaluate inside the kernel.) -/
def removeChar (s : String) (c : Char) : String :=
  String.mk (s.toList.filter (fun x => decide (x ≠ c)))

/-- The character stripping of `compare_values`:
    `str(x).replace("%", "").replace(",", "")`. -/
def stripNum (s : String) : String := removeChar (removeChar s '%') ','

/-- Does `pat` occur at the head of `l`? -/
def leadsWith : List Char → List Char → Bool
  | [], _ => true
  | _ :: _, [] => false
  | p :: ps, c :: cs => p = c && leadsWith ps cs

/-- Core of Python `s.split(sep)` for a nonempty separator, structured on
    fuel so that it stays kernel-reducible; each step consumes at least one
    character, so `length + 1` fuel always suffices. -/
def splitCore (pat : List Char) : ℕ → List Char → List Char → List (List Char)
  | 0, l, acc => [acc.reverse ++ l]
  | fuel + 1, l, acc =>
    match l with
    | [] => [acc.reverse]
    | c :: cs =>
      if leadsWith pat l then
        acc.reverse :: splitCore pat fuel (l.drop pat.length) []
      else splitCore pat fuel cs (c :: acc)

/-- Python `s.split(sep)` for a nonempty separator. -/
def pySplit (s pat : String) : List String :=
  (splitCore pat.toList (s.toList.length + 1) s.toList []).map String.mk

/-- Python `s.startswith(pre)`. -/
def pyStartsWith (s pre : String) : Bool := leadsWith pre.toList s.toList

/-- The pass-through of the `except` branch of `compare_values`:
    `"N/A" if pd.isna(x) else x`. -/
def naOr (x : Option String) : Val :=
  if pdIsna x then Val.s "N/A" else Val.s (pyStr x)

/-- The literal `1e-12` of `compare_values` (exact in the rational model). -/
def eps12 : ℚ := mkRat 1 (10 ^ 12)

/-- `compare_values(old, new, is_whole)` from compare_snapshots.py: parse both
    raw values (stripping `%` and `,`), divide by 100 unless `is_whole`,
    compute delta and percent change with the zero/infinity special cases, and
    round; on any parse failure fall back to passing the raw values through
    with `"N/A"` delta and percent. -/
def compare_values (old new : Option String) (is_whole : Bool) :
    Val × Val × Val × Val :=
  match pyFloat (stripNum (pyStr old)), pyFloat (stripNum (pyStr new)) with
  | some o, some n =>
    let old_val := if is_whole then o else o.div (PyF.fin 100)
    let new_val := if is_whole then n else n.div (PyF.fin 100)
    let delta := new_val.sub old_val
    let pct :=
      if old_val.abs.lt (PyF.fin eps12) && new_val.abs.lt (PyF.fin eps12) then
        PyF.fin 0
      else if old_val.abs.lt (PyF.fin eps12) then PyF.pinf
      else (delta.div old_val).mul (PyF.fin 100)
    (Val.f (new_val.roundTo 4), Val.f (old_val.roundTo 4),
     Val.f (delta.roundTo 4), Val.f (pct.roundTo 2))
  | _, _ => (naOr new, naOr old, Val.s "N/A", Val.s "N/A")

/-! ## Tables -/

/-- A stored table row: an association list from column name to cell value.
    A name absent from the list models a missing cell. -/
abbrev Row := List (String × String)

/-- A DataFrame: its column list plus its rows. -/
structure Table where
  cols : List String
  rows : List Row
deriving DecidableEq, Repr

/-- Look a cell up in a row by column name (first binding wins). -/
def cellOf : Row → String → Option String
  | [], _ => none
  | (k, v) :: r, c => if k = c then some v else cellOf r c

/-- pandas elementwise `==` on cells: a missing value compares unequal to
    everything, itself included. -/
def pdEq (a b : Option String) : Bool :=
  match a, b with
  | some x, some y => x = y
  | _, _ => false

/-- `drop_duplicates` / `unique`: keep the first occurrence of each value. -/
def dedupFirst {α : Type} [DecidableEq α] : List α → List α
  | [] => []
  | x :: xs => x :: (dedupFirst xs).filter (fun y => decide (y ≠ x))

/-- Row order of a pandas outer merge with `sort=False` on already
    deduplicated key frames: left keys in order, then unmatched right keys. -/
def outerUnion {α : Type} [DecidableEq α] (l r : List α) : List α :=
  l ++ r.filter (fun y => decide (y ∉ l))

/-! ## Keyed-section merger (insights / actions) -/

/-- The fixed whole-number allow-list for insights metrics. -/
def INSIGHTS_WHOLE_NUMBER_METRICS : List String :=
  ["Total publications (insight)", "Total preprints (insight)"]

/-- The fixed whole-number allow-list for explore metrics. -/
def EXPLORE_WHOLE_NUMBER_METRICS : List String :=
  ["PUBLICATIONS", "Total APC amount", "Mean APC amount", "Median APC amount"]

/-- Python `pat in s` substring test, via split. -/
def containsSub (s pat : String) : Bool := (pySplit s pat).length != 1

/-- Rename the `value` binding of one row to `Value`
    (`df.rename(columns={"value": "Value"})`, row part). -/
def renRowValue (r : Row) : Row :=
  r.map (fun kv => (if kv.1 = "value" then "Value" else kv.1, kv.2))

/-- The column-name normalization at the top of `process_rows_by_key`:
    rename a lowercase `value` column to `Value` when `Value` is absent. -/
def renameValueCol (t : Table) : Table :=
  if "Value" ∉ t.cols ∧ "value" ∈ t.cols then
    { cols := t.cols.map (fun c => if c = "value" then "Value" else c),
      rows := t.rows.map renRowValue }
  else t

/-- The `(key_col, date_col)` pair of each row of a table. -/
def keyPairs (t : Table) (kc dc : String) : List (Option String × Option String) :=
  t.rows.map (fun r => (cellOf r kc, cellOf r dc))

/-- The combos of `process_rows_by_key`: the outer merge of the deduplicated
    `(key_col, date_col)` pairs of the two tables. -/
def combosKeyed (o n : Table) (kc dc : String) :
    List (Option String × Option String) :=
  outerUnion (dedupFirst (keyPairs o kc dc)) (dedupFirst (keyPairs n kc dc))

/-- The row mask `(df[key_col] == metric) & (df[date_col] == dr)`. -/
def matchesPair (kc dc : String) (p : Option String × Option String)
    (r : Row) : Bool :=
  pdEq (cellOf r kc) p.1 && pdEq (cellOf r dc) p.2

/-- The raw value one side contributes for a combo:
    `part["Value"].values[0] if not part.empty else "N/A"`. -/
def rawSide (t : Table) (kc dc : String)
    (p : Option String × Option String) : Option String :=
  match t.rows.filter (matchesPair kc dc p) with
  | [] => some "N/A"
  | r :: _ => cellOf r "Value"

/-- The unit policy of `process_rows_by_key`: an insight metric consults the
    insights allow-list; anything else (actions) is whole. -/
def isWholeKeyed (m : Option String) : Bool :=
  if containsSub (pyStr m) "(insight)" then
    match m with
    | some t => decide (t ∈ INSIGHTS_WHOLE_NUMBER_METRICS)
    | none => false
  else true

/-- One comparison result row. -/
structure ResultRow where
  DATE_RANGE : String
  METRIC : String
  Old : Val
  New : Val
  Change : Val
  pctChange : Val
deriving DecidableEq, Repr

/-- The body of the combo loop of `process_rows_by_key`. -/
def mkKeyedRow (o n : Table) (kc dc : String)
    (p : Option String × Option String) : ResultRow :=
  let val_old := rawSide o kc dc p
  let val_new := rawSide n kc dc p
  let q := compare_values val_old val_new (isWholeKeyed p.1)
  { DATE_RANGE := match p.2 with | some d => d | none => "N/A"
    METRIC := match p.1 with | some m => m | none => "N/A"
    Old := q.2.1
    New := q.1
    Change := q.2.2.1
    pctChange := q.2.2.2 }

/-- `process_rows_by_key(old_df, new_df, key_col, date_col)`. -/
def process_rows_by_key (old_df new_df : Table) (key_col date_col : String) :
    List ResultRow :=
  let o := renameValueCol old_df
  let n := renameValueCol new_df
  (combosKeyed o n key_col date_col).map (mkKeyedRow o n key_col date_col)

/-! ## Wide-section merger (explore) -/

/-- The fixed exclusion set of `process_explore_section`. -/
def skip_cols : List String := ["collection_time", "org_url", "KEY"]

/-- The metric columns: the union of the column sets of both tables minus
    `skip_cols`.  Python iterates the union as a `set`, whose order is
    unspecified; the model fixes first-occurrence order, and every claim
    below is order-independent. -/
def exploreMetrics (o n : Table) : List String :=
  (dedupFirst (o.cols ++ n.cols)).filter (fun c => decide (c ∉ skip_cols))

/-- The `KEY` cell of each row. -/
def keyVals (t : Table) : List (Option String) :=
  t.rows.map (fun r => cellOf r "KEY")

/-- The key combos of `process_explore_section`: outer merge of the two
    deduplicated `KEY` columns (already unique, so `.unique()` is the
    identity on it). -/
def combosExplore (o n : Table) : List (Option String) :=
  outerUnion (dedupFirst (keyVals o)) (dedupFirst (keyVals n))

/-- The raw value one side contributes for a key and metric:
    `part.iloc[0][metric] if (not part.empty and metric in part.columns)
    else "N/A"`. -/
def rawWide (t : Table) (k : Option String) (metric : String) : Option String :=
  match t.rows.filter (fun r => pdEq (cellOf r "KEY") k) with
  | [] => some "N/A"
  | r :: _ => if metric ∈ t.cols then cellOf r metric else some "N/A"

/-- The body of the inner loop of `process_explore_section`. -/
def mkWideRow (o n : Table) (k : Option String) (metric : String) : ResultRow :=
  let val_old := rawWide o k metric
  let val_new := rawWide n k metric
  let q := compare_values val_old val_new
    (decide (metric ∈ EXPLORE_WHOLE_NUMBER_METRICS))
  { DATE_RANGE := match k with | some d => d | none => "N/A"
    METRIC := metric
    Old := q.2.1
    New := q.1
    Change := q.2.2.1
    pctChange := q.2.2.2 }

/-- `process_explore_section(old_df, new_df)`. -/
def process_explore_section (old_df new_df : Table) : List ResultRow :=
  ((combosExplore old_df new_df).map (fun k =>
    (exploreMetrics old_df new_df).map (mkWideRow old_df new_df k))).flatten

/-! ## Section aggregation (`process_section` after the sheet load) -/

/-- `filter_by_date`: keep the rows whose `collection_time` starts with the
    date string. -/
def filter_by_date (t : Table) (d : String) : Table :=
  { cols := t.cols
    rows := t.rows.filter (fun r =>
      match cellOf r "collection_time" with
      | some s => pyStartsWith s d
      | none => false) }

/-- Python `s.strip("/")`: drop leading and trailing slashes. -/
def stripSlashes (s : String) : String :=
  String.mk (((s.toList.dropWhile (fun c => c = '/')).reverse.dropWhile
    (fun c => c = '/')).reverse)

/-- `extract_org_from_url`: `url.split(".report/")[1].split("?")[0].strip("/")`.
    `none` models the uncaught `IndexError` raised when the URL does not
    contain the `.report/` marker. -/
def extract_org_from_url (url : String) : Option String :=
  match (pySplit url ".report/").get? 1 with
  | none => none
  | some rest => some (stripSlashes ((pySplit rest "?").headD ""))

/-- The recognized URL-bearing column names, in probe order. -/
def URL_COLS : List String := ["org_url", "Page_URL", "Original_URL"]

/-- `next((c for c in [...] if c in df.columns), None)`. -/
def pickUrlCol (t : Table) : Option String :=
  URL_COLS.find? (fun c => decide (c ∈ t.cols))

/-- `df["org"] = df[url_col].apply(extract_org_from_url)`: append a derived
    `org` column.  `none` models the exception propagating out of `apply`
    when any row's URL lacks the marker (or the cell is missing).  The
    scraped tables never carry a pre-existing `org` column, so assignment is
    column creation. -/
def attachOrg (t : Table) (url_col : String) : Option Table := do
  let rows ← t.rows.mapM (fun r => do
    let u ← cellOf r url_col
    let org ← extract_org_from_url u
    pure (r ++ [("org", org)]))
  pure { cols := t.cols ++ ["org"], rows := rows }

/-- The in-memory part of `process_section` (after `load_gsheet_to_df`): pick
    the URL column (skipping the section with a diagnostic when none exists),
    attach the `org` column, and for each organization compare its two date
    slices with the section's merger.  `none` models an uncaught exception. -/
def process_section_core (sec : String) (df : Table) (date1 date2 : String) :
    Option (List (String × List ResultRow)) :=
  match pickUrlCol df with
  | none => some []
  | some url_col =>
    match attachOrg df url_col with
    | none => none
    | some df2 =>
      let orgs := dedupFirst (df2.rows.filterMap (fun r => cellOf r "org"))
      some (orgs.filterMap (fun org =>
        let subset : Table :=
          { cols := df2.cols
            rows := df2.rows.filter (fun r => pdEq (cellOf r "org") (some org)) }
        let df_old := filter_by_date subset date1
        let df_new := filter_by_date subset date2
        if df_old.rows.isEmpty && df_new.rows.isEmpty then none
        else
          let out :=
            if sec = "explore" then process_explore_section df_old df_new
            else process_rows_by_key df_old df_new
              (if sec = "insights" then "Insight" else "strategy") "date_range"
          if out.isEmpty then none else some (org, out)))

/-! ## Styling (`apply_styling`) -/

/-- A worksheet cell as openpyxl sees it after `to_excel`: a number, a text
    string, or an empty cell (value `None`). -/
inductive Cell where
  | num (q : ℚ)
  | text (t : String)
  | blank
deriving DecidableEq, Repr

/-- `float(cell.value)` in `apply_styling`: a number is itself, text goes
    through `float()` parsing, and `None` raises (modelled `none`). -/
def cellFloat : Cell → Option PyF
  | Cell.num q => some (PyF.fin q)
  | Cell.text t => pyFloat t
  | Cell.blank => none

/-- The literal `1e-9` of `apply_styling` (exact in the rational model). -/
def eps9 : ℚ := mkRat 1 (10 ^ 9)

/-- The two conditional fonts of `apply_styling`. -/
inductive FontMark where
  | redFont
  | boldFont
deriving DecidableEq, Repr

/-- The styling state of the `Change` / `% Change` cells of one data row. -/
structure CellStyle where
  changeFont : Option FontMark
  pctFont : Option FontMark
  changeFill : Bool
  pctFill : Bool
deriving DecidableEq, Repr

/-- The per-row body of `apply_styling`: try `float` on the percent cell,
    mark red when ~zero, bold both cells when at least 1 in magnitude,
    swallow the parse failure, and always apply the grey fill. -/
def styleRow (pctCell : Cell) : CellStyle :=
  let base : CellStyle :=
    { changeFont := none, pctFont := none, changeFill := true, pctFill := true }
  match cellFloat pctCell with
  | none => base
  | some v =>
    if v.abs.lt (PyF.fin eps9) then { base with pctFont := some FontMark.redFont }
    else if PyF.le (PyF.fin 1) v.abs then
      { base with changeFont := some FontMark.boldFont
                  pctFont := some FontMark.boldFont }
    else base

/-- One data row of an output sheet (row 2 onward): the six fixed columns,
    of which `apply_styling` reads index 4 (`Change`) and 5 (`% Change`). -/
structure SheetRow where
  dateRangeCell : Cell
  metricCell : Cell
  oldCell : Cell
  newCell : Cell
  changeCell : Cell
  pctCell : Cell
deriving DecidableEq, Repr

/-- `apply_styling` over the data rows of one worksheet. -/
def apply_styling (ws : List SheetRow) : List CellStyle :=
  ws.map (fun r => styleRow r.pctCell)

/-- The scaled value compared by `compare_values`: the parsed value, divided
    by 100 unless `is_whole` (the `old_val /= 100` step). -/
def scaleWhole (is_whole : Bool) (x : PyF) : PyF :=
  if is_whole then x else x.div (PyF.fin 100)

/-! ## Supporting lemmas -/

theorem roundHalfEven_intCast (z : ℤ) : roundHalfEven (z : ℚ) = z := by
  have h0 : qSub (z : ℚ) (qI z) = 0 := by rw [qSub_eq, qI_eq]; ring
  have hlt : (0 : ℚ) < mkRat 1 2 := by rw [Rat.mkRat_eq_div]; norm_num
  simp [roundHalfEven, Int.floor_intCast, h0, hlt]

theorem pyRound_zero (d : ℕ) : pyRound 0 d = 0 := by
  have h0 : qMul 0 (mkRat (10 ^ d) 1) = ((0 : ℤ) : ℚ) := by rw [qMul_eq]; simp
  rw [pyRound, h0, roundHalfEven_intCast]
  rw [Rat.mkRat_eq_div]
  norm_num

theorem pyRound_eq_self (q : ℚ) (d : ℕ) (z : ℤ) (hz : q * 10 ^ d = z) :
    pyRound q d = q := by
  have hpow : (10 : ℚ) ^ d ≠ 0 := by positivity
  have hq : qMul q (mkRat (10 ^ d) 1) = ((z : ℤ) : ℚ) := by
    rw [qMul_eq, Rat.mkRat_eq_div, ← hz]
    push_cast
    ring
  rw [pyRound, hq, roundHalfEven_intCast, Rat.mkRat_eq_div, ← hz]
  push_cast
  field_simp

/-! ## C1 -/

/-- C1: for a pair of raw inputs that both parse as numbers (after stripping
    `%` and `,` and applying the `is_whole` division by 100), the returned
    pct is 0 when both scaled values have magnitude below 1e-12, +infinity
    when only the old scaled value does, and the rounded relative change in
    percent otherwise. -/
theorem compare_values_pct_spec (old new : Option String) (is_whole : Bool)
    (o n : PyF)
    (ho : pyFloat (stripNum (pyStr old)) = some o)
    (hn : pyFloat (stripNum (pyStr new)) = some n) :
    (compare_values old new is_whole).2.2.2 =
      if (scaleWhole is_whole o).abs.lt (PyF.fin eps12) &&
         (scaleWhole is_whole n).abs.lt (PyF.fin eps12) then
        Val.f (PyF.fin 0)
      else if (scaleWhole is_whole o).abs.lt (PyF.fin eps12) &&
              !((scaleWhole is_whole n).abs.lt (PyF.fin eps12)) then
        Val.f PyF.pinf
      else
        Val.f (((((scaleWhole is_whole n).sub (scaleWhole is_whole o)).div
          (scaleWhole is_whole o)).mul (PyF.fin 100)).roundTo 2) := by
  unfold compare_values scaleWhole
  rw [ho, hn]
  cases hA : (if is_whole then o else o.div (PyF.fin 100)).abs.lt (PyF.fin eps12) <;>
    cases hB : (if is_whole then n else n.div (PyF.fin 100)).abs.lt (PyF.fin eps12) <;>
      simp [hA, hB, PyF.roundTo, pyRound_zero]

theorem compare_values_pct_spec_witness :
    (compare_values (some "0") (some "5") true).2.2.2 = Val.f PyF.pinf :=
  (compare_values_pct_spec (some "0") (some "5") true (PyF.fin 0) (PyF.fin 5)
    (by decide) (by decide)).trans (by decide)

/-- The `except` branch of `compare_values`: a parse failure on either side
    yields the pass-through quadruple.  (Shared helper.) -/
theorem compare_values_parse_fail (old new : Option String) (is_whole : Bool)
    (h : pyFloat (stripNum (pyStr old)) = none ∨
         pyFloat (stripNum (pyStr new)) = none) :
    compare_values old new is_whole =
      (naOr new, naOr old, Val.s "N/A", Val.s "N/A") := by
  unfold compare_values
  rcases h with h | h
  · rw [h]
  · rw [h]
    cases pyFloat (stripNum (pyStr old)) <;> rfl

/-- The sentinel `"N/A"` never parses as a number. -/
theorem pyFloat_NA : pyFloat (stripNum (pyStr (some "N/A"))) = none := by decide

/-! ## C2 -/

/-- C2: when either raw input fails to parse as a number after stripping,
    `compare_values` falls back to passing the raw values through
    (substituting `"N/A"` for a missing value) with delta and pct the string
    `"N/A"`; in particular it never raises (the model is total). -/
theorem compare_values_fallback (old new : Option String) (is_whole : Bool)
    (h : pyFloat (stripNum (pyStr old)) = none ∨
         pyFloat (stripNum (pyStr new)) = none) :
    compare_values old new is_whole =
      (naOr new, naOr old, Val.s "N/A", Val.s "N/A") :=
  compare_values_parse_fail old new is_whole h

theorem compare_values_fallback_witness :
    compare_values (some "N/A") (some "500") true =
      (Val.s "500", Val.s "N/A", Val.s "N/A", Val.s "N/A") :=
  (compare_values_fallback (some "N/A") (some "500") true
    (Or.inl (by decide))).trans (by decide)

/-! ## C3 -/

/-- C3 counterexample: on the numeric raw input "1.23456" (both sides), the
    new value under `is_whole = True` is round(1.23456, 4) = 1.2346, while
    100 times the new value under `is_whole = False` is
    100 * round(0.0123456, 4) = 1.23, so the claimed scaling identity fails. -/
theorem compare_values_scaling_counterexample :
    (compare_values (some "1.23456") (some "1.23456") true).1 =
      Val.f (PyF.fin (mkRat 6173 5000)) ∧
    (compare_values (some "1.23456") (some "1.23456") false).1 =
      Val.f (PyF.fin (mkRat 123 10000)) ∧
    (mkRat 6173 5000 : ℚ) ≠ 100 * mkRat 123 10000 := by
  refine ⟨by decide, by decide, by norm_num [Rat.mkRat_eq_div]⟩

/-- C3 amended: the scaling identity `new_val(True) = 100 * new_val(False)`
    holds whenever the parsed new value is finite with at most two decimal
    places (so that the rounding to four decimal places after the division
    by 100 is exact).  This condition is sufficient, not necessary: an input
    such as "0.00001" rounds to 0 on both sides and satisfies the identity
    coincidentally. -/
theorem compare_values_new_val_scaling (old new : Option String) (o : PyF)
    (q : ℚ) (z : ℤ)
    (ho : pyFloat (stripNum (pyStr old)) = some o)
    (hn : pyFloat (stripNum (pyStr new)) = some (PyF.fin q))
    (hz : q * 100 = z) :
    ∃ a b : ℚ,
      (compare_values old new true).1 = Val.f (PyF.fin a) ∧
      (compare_values old new false).1 = Val.f (PyF.fin b) ∧
      a = 100 * b := by
  refine ⟨q, qDiv q 100, ?_, ?_, ?_⟩
  · unfold compare_values
    rw [ho, hn]
    show Val.f (PyF.fin (pyRound q 4)) = Val.f (PyF.fin q)
    have h4 : q * 10 ^ 4 = ((z * 100 : ℤ) : ℚ) := by push_cast [← hz]; ring
    rw [pyRound_eq_self q 4 (z * 100) h4]
  · unfold compare_values
    rw [ho, hn]
    show Val.f (PyF.fin (pyRound (qDiv q 100) 4)) = Val.f (PyF.fin (qDiv q 100))
    have h4 : qDiv q 100 * 10 ^ 4 = ((z : ℤ) : ℚ) := by
      rw [qDiv_eq, show (q / 100 * 10 ^ 4 : ℚ) = q * 100 by ring, hz]
    rw [pyRound_eq_self (qDiv q 100) 4 z h4]
  · rw [qDiv_eq]
    field_simp

theorem compare_values_new_val_scaling_witness :
    ∃ a b : ℚ,
      (compare_values (some "1.25") (some "1.25") true).1 = Val.f (PyF.fin a) ∧
      (compare_values (some "1.25") (some "1.25") false).1 = Val.f (PyF.fin b) ∧
      a = 100 * b :=
  compare_values_new_val_scaling (some "1.25") (some "1.25")
    (PyF.fin (mkRat 5 4)) (mkRat 5 4) 125 (by decide) (by decide)
    (by norm_num [Rat.mkRat_eq_div])

/-! ## List and table lemmas -/

theorem mem_dedupFirst {α : Type} [DecidableEq α] (l : List α) (a : α) :
    a ∈ dedupFirst l ↔ a ∈ l := by
  induction l with
  | nil => simp [dedupFirst]
  | cons x xs ih =>
    by_cases hax : a = x
    · simp [dedupFirst, hax]
    · simp [dedupFirst, List.mem_filter, hax, ih]

theorem nodup_dedupFirst {α : Type} [DecidableEq α] (l : List α) :
    (dedupFirst l).Nodup := by
  induction l with
  | nil => simp [dedupFirst]
  | cons x xs ih =>
    refine List.nodup_cons.mpr ⟨?_, ih.filter _⟩
    intro hx
    rcases List.mem_filter.mp hx with ⟨_, hne⟩
    simp at hne

theorem mem_outerUnion {α : Type} [DecidableEq α] (l r : List α) (a : α) :
    a ∈ outerUnion l r ↔ a ∈ l ∨ a ∈ r := by
  by_cases hal : a ∈ l
  · simp [outerUnion, hal]
  · simp [outerUnion, List.mem_filter, hal]

theorem nodup_outerUnion {α : Type} [DecidableEq α] (l r : List α)
    (hl : l.Nodup) (hr : r.Nodup) : (outerUnion l r).Nodup := by
  refine List.Nodup.append hl (hr.filter _) ?_
  intro a hal har
  rcases List.mem_filter.mp har with ⟨_, hna⟩
  simp at hna
  exact hna hal

theorem eq_of_pdEq (a b : Option String) (h : pdEq a b = true) : a = b := by
  cases a with
  | none => cases b <;> simp [pdEq] at h
  | some x =>
    cases b with
    | none => simp [pdEq] at h
    | some y => simp [pdEq] at h; rw [h]

theorem cellOf_renRowValue (r : Row) (c : String)
    (h1 : c ≠ "value") (h2 : c ≠ "Value") :
    cellOf (renRowValue r) c = cellOf r c := by
  induction r with
  | nil => rfl
  | cons kv rest ih =>
    rcases kv with ⟨k, v⟩
    simp only [renRowValue, List.map_cons] at *
    by_cases hk : k = "value"
    · rw [cellOf, cellOf, if_pos hk, if_neg (Ne.symm h2), hk, if_neg (Ne.symm h1)]
      exact ih
    · rw [cellOf, cellOf, if_neg hk]
      by_cases hkc : k = c
      · rw [if_pos hkc, if_pos hkc]
      · rw [if_neg hkc, if_neg hkc]
        exact ih

theorem keyPairs_renameValueCol (t : Table) (kc dc : String)
    (hk1 : kc ≠ "value") (hk2 : kc ≠ "Value")
    (hd1 : dc ≠ "value") (hd2 : dc ≠ "Value") :
    keyPairs (renameValueCol t) kc dc = keyPairs t kc dc := by
  unfold renameValueCol
  split
  · simp only [keyPairs, List.map_map]
    apply List.map_congr_left
    intro r _
    simp [Function.comp, cellOf_renRowValue r kc hk1 hk2,
      cellOf_renRowValue r dc hd1 hd2]
  · rfl

theorem combosKeyed_renameValueCol (o n : Table) (kc dc : String)
    (hk1 : kc ≠ "value") (hk2 : kc ≠ "Value")
    (hd1 : dc ≠ "value") (hd2 : dc ≠ "Value") :
    combosKeyed (renameValueCol o) (renameValueCol n) kc dc =
      combosKeyed o n kc dc := by
  unfold combosKeyed
  rw [keyPairs_renameValueCol o kc dc hk1 hk2 hd1 hd2,
    keyPairs_renameValueCol n kc dc hk1 hk2 hd1 hd2]

theorem mem_keyPairs_of_matches (t : Table) (kc dc : String)
    (p : Option String × Option String) (r : Row) (hr : r ∈ t.rows)
    (hm : matchesPair kc dc p r = true) : p ∈ keyPairs t kc dc := by
  have hm2 : pdEq (cellOf r kc) p.1 = true ∧ pdEq (cellOf r dc) p.2 = true := by
    simpa [matchesPair] using hm
  rcases hm2 with ⟨h1, h2⟩
  have e1 : cellOf r kc = p.1 := eq_of_pdEq _ _ h1
  have e2 : cellOf r dc = p.2 := eq_of_pdEq _ _ h2
  have : p = (cellOf r kc, cellOf r dc) := by
    rw [e1, e2]
  rw [this]
  exact List.mem_map.mpr ⟨r, hr, rfl⟩

theorem rawSide_of_not_mem (t : Table) (kc dc : String)
    (p : Option String × Option String) (h : p ∉ keyPairs t kc dc) :
    rawSide t kc dc p = some "N/A" := by
  have hfil : t.rows.filter (matchesPair kc dc p) = [] := by
    rw [List.filter_eq_nil_iff]
    intro r hr hm
    exact h (mem_keyPairs_of_matches t kc dc p r hr hm)
  simp [rawSide, hfil]

/-! ## C4 -/

/-- C4 counterexample: for the pair of tables where the old side is empty
    and the new side stores the literal string "N/A" as its Value, the single
    new-only combination produces a result row whose New is the string
    "N/A" — not a non-"N/A" value as the claim states. -/
theorem process_rows_by_key_new_only_counterexample :
    (some "m", some "d") ∈ keyPairs
      (Table.mk ["Insight", "date_range", "Value"]
        [[("Insight", "m"), ("date_range", "d"), ("Value", "N/A")]])
      "Insight" "date_range" ∧
    keyPairs (Table.mk ["Insight", "date_range", "Value"] [])
      "Insight" "date_range" = [] ∧
    (process_rows_by_key
      (Table.mk ["Insight", "date_range", "Value"] [])
      (Table.mk ["Insight", "date_range", "Value"]
        [[("Insight", "m"), ("date_range", "d"), ("Value", "N/A")]])
      "Insight" "date_range").map ResultRow.New = [Val.s "N/A"] := by
  refine ⟨by decide, by decide, by decide⟩

/-- C4 (amended): the keyed merger produces exactly one result row per
    distinct `(key_col, date_col)` pair present in either table (full outer
    union); for a combination absent from the old table the row has
    `Old = "N/A"`, and its New is the stored raw new-side value passed
    through as text — non-"N/A" whenever that stored value differs from the
    literal "N/A".  (Key and date columns are assumed distinct from the
    value column, as in the insights/actions sections.) -/
theorem process_rows_by_key_outer_union (old_df new_df : Table)
    (kc dc : String)
    (hk1 : kc ≠ "value") (hk2 : kc ≠ "Value")
    (hd1 : dc ≠ "value") (hd2 : dc ≠ "Value") :
    (process_rows_by_key old_df new_df kc dc).length =
      (combosKeyed old_df new_df kc dc).length ∧
    (combosKeyed old_df new_df kc dc).Nodup ∧
    (∀ p, p ∈ combosKeyed old_df new_df kc dc ↔
      p ∈ keyPairs old_df kc dc ∨ p ∈ keyPairs new_df kc dc) ∧
    (∀ p, p ∈ combosKeyed old_df new_df kc dc → p ∉ keyPairs old_df kc dc →
      mkKeyedRow (renameValueCol old_df) (renameValueCol new_df) kc dc p ∈
        process_rows_by_key old_df new_df kc dc ∧
      (mkKeyedRow (renameValueCol old_df) (renameValueCol new_df) kc dc p).Old =
        Val.s "N/A" ∧
      ∀ v, rawSide (renameValueCol new_df) kc dc p = some v → v ≠ "N/A" →
        (mkKeyedRow (renameValueCol old_df) (renameValueCol new_df) kc dc p).New =
          Val.s v) := by
  have hren := combosKeyed_renameValueCol old_df new_df kc dc hk1 hk2 hd1 hd2
  refine ⟨?_, ?_, ?_, ?_⟩
  · unfold process_rows_by_key
    rw [List.length_map, hren]
  · exact nodup_outerUnion _ _ (nodup_dedupFirst _) (nodup_dedupFirst _)
  · intro p
    unfold combosKeyed
    rw [mem_outerUnion, mem_dedupFirst, mem_dedupFirst]
  · intro p hp hpold
    have hraw : rawSide (renameValueCol old_df) kc dc p = some "N/A" := by
      apply rawSide_of_not_mem
      rw [keyPairs_renameValueCol old_df kc dc hk1 hk2 hd1 hd2]
      exact hpold
    have hfall : pyFloat (stripNum (pyStr (some "N/A"))) = none := pyFloat_NA
    refine ⟨?_, ?_, ?_⟩
    · simp only [process_rows_by_key]
      rw [hren]
      exact List.mem_map.mpr ⟨p, hp, rfl⟩
    · simp only [mkKeyedRow]
      rw [hraw, compare_values_parse_fail _ _ _ (Or.inl hfall)]
      rfl
    · intro v hv _
      simp only [mkKeyedRow]
      rw [hraw, hv, compare_values_parse_fail _ _ _ (Or.inl hfall)]
      rfl

theorem process_rows_by_key_outer_union_witness :
    (mkKeyedRow
      (renameValueCol (Table.mk ["Insight", "date_range", "Value"] []))
      (renameValueCol (Table.mk ["Insight", "date_range", "Value"]
        [[("Insight", "m"), ("date_range", "d"), ("Value", "500")]]))
      "Insight" "date_range" (some "m", some "d")).Old = Val.s "N/A" ∧
    (mkKeyedRow
      (renameValueCol (Table.mk ["Insight", "date_range", "Value"] []))
      (renameValueCol (Table.mk ["Insight", "date_range", "Value"]
        [[("Insight", "m"), ("date_range", "d"), ("Value", "500")]]))
      "Insight" "date_range" (some "m", some "d")).New = Val.s "500" := by
  have h := (process_rows_by_key_outer_union
    (Table.mk ["Insight", "date_range", "Value"] [])
    (Table.mk ["Insight", "date_range", "Value"]
      [[("Insight", "m"), ("date_range", "d"), ("Value", "500")]])
    "Insight" "date_range" (by decide) (by decide) (by decide)
    (by decide)).2.2.2 (some "m", some "d") (by decide) (by decide)
  exact ⟨h.2.1, h.2.2 "500" (by decide) (by decide)⟩

/-! ## C8 -/

/-- C8: the keyed merger compares using the Value of the first matching row
    on each side: for a combo whose filtered row list starts with `r`, the
    raw value is `r`'s Value and the produced result row is the same as if
    that side's table contained only `r`; for a combo with no matching row
    on a side, that side's raw value is the sentinel `"N/A"`. -/
theorem process_rows_by_key_first_match (o n : Table) (kc dc : String)
    (p : Option String × Option String)
    (hp : p ∈ combosKeyed (renameValueCol o) (renameValueCol n) kc dc) :
    mkKeyedRow (renameValueCol o) (renameValueCol n) kc dc p ∈
      process_rows_by_key o n kc dc ∧
    (∀ r rest,
      (renameValueCol o).rows.filter (matchesPair kc dc p) = r :: rest →
      rawSide (renameValueCol o) kc dc p = cellOf r "Value" ∧
      mkKeyedRow (renameValueCol o) (renameValueCol n) kc dc p =
        mkKeyedRow (Table.mk (renameValueCol o).cols [r])
          (renameValueCol n) kc dc p) ∧
    (∀ r rest,
      (renameValueCol n).rows.filter (matchesPair kc dc p) = r :: rest →
      rawSide (renameValueCol n) kc dc p = cellOf r "Value" ∧
      mkKeyedRow (renameValueCol o) (renameValueCol n) kc dc p =
        mkKeyedRow (renameValueCol o)
          (Table.mk (renameValueCol n).cols [r]) kc dc p) ∧
    ((renameValueCol o).rows.filter (matchesPair kc dc p) = [] →
      rawSide (renameValueCol o) kc dc p = some "N/A") ∧
    ((renameValueCol n).rows.filter (matchesPair kc dc p) = [] →
      rawSide (renameValueCol n) kc dc p = some "N/A") := by
  refine ⟨?_, ?_, ?_, ?_, ?_⟩
  · simp only [process_rows_by_key]
    exact List.mem_map.mpr ⟨p, hp, rfl⟩
  · intro r rest h
    have hrmem : r ∈ (renameValueCol o).rows.filter (matchesPair kc dc p) := by
      rw [h]; exact List.mem_cons_self r rest
    have hmatch : matchesPair kc dc p r = true :=
      (List.mem_filter.mp hrmem).2
    have hsingle : (Table.mk (renameValueCol o).cols [r]).rows.filter
        (matchesPair kc dc p) = [r] := by
      simp [hmatch]
    have hA : rawSide (renameValueCol o) kc dc p = cellOf r "Value" := by
      simp [rawSide, h]
    have hB : rawSide (Table.mk (renameValueCol o).cols [r]) kc dc p =
        cellOf r "Value" := by
      simp [rawSide, hsingle]
    refine ⟨hA, ?_⟩
    simp only [mkKeyedRow]
    rw [hA, hB]
  · intro r rest h
    have hrmem : r ∈ (renameValueCol n).rows.filter (matchesPair kc dc p) := by
      rw [h]; exact List.mem_cons_self r rest
    have hmatch : matchesPair kc dc p r = true :=
      (List.mem_filter.mp hrmem).2
    have hsingle : (Table.mk (renameValueCol n).cols [r]).rows.filter
        (matchesPair kc dc p) = [r] := by
      simp [hmatch]
    have hA : rawSide (renameValueCol n) kc dc p = cellOf r "Value" := by
      simp [rawSide, h]
    have hB : rawSide (Table.mk (renameValueCol n).cols [r]) kc dc p =
        cellOf r "Value" := by
      simp [rawSide, hsingle]
    refine ⟨hA, ?_⟩
    simp only [mkKeyedRow]
    rw [hA, hB]
  · intro h
    simp [rawSide, h]
  · intro h
    simp [rawSide, h]

theorem process_rows_by_key_first_match_witness :
    rawSide (renameValueCol (Table.mk ["strategy", "date_range", "Value"]
      [[("strategy", "m"), ("date_range", "d"), ("Value", "1")],
       [("strategy", "m"), ("date_range", "d"), ("Value", "2")]]))
      "strategy" "date_range" (some "m", some "d") = some "1" := by
  have h := process_rows_by_key_first_match
    (Table.mk ["strategy", "date_range", "Value"]
      [[("strategy", "m"), ("date_range", "d"), ("Value", "1")],
       [("strategy", "m"), ("date_range", "d"), ("Value", "2")]])
    (Table.mk ["strategy", "date_range", "Value"]
      [[("strategy", "m"), ("date_range", "d"), ("Value", "5")]])
    "strategy" "date_range" (some "m", some "d") (by decide)
  exact ((h.2.1 [("strategy", "m"), ("date_range", "d"), ("Value", "1")]
    [[("strategy", "m"), ("date_range", "d"), ("Value", "2")]]
    (by decide)).1).trans (by decide)

/-! ## C5 -/

/-- A metric column absent from a table always contributes the raw value
    `"N/A"` on that side. -/
theorem rawWide_of_not_col (t : Table) (k : Option String) (m : String)
    (h : m ∉ t.cols) : rawWide t k m = some "N/A" := by
  simp only [rawWide]
  split
  · rfl
  · rw [if_neg h]

/-- C5: the wide merger produces one result row per metric per key: its
    output length is the number of keys (union of both tables' KEY values,
    deduplicated) times the number of metrics (union of both column sets
    minus the fixed exclusion set); each key/metric pair contributes its row,
    and a metric column absent from one side renders that side "N/A". -/
theorem process_explore_section_spec (o n : Table) :
    (process_explore_section o n).length =
      (combosExplore o n).length * (exploreMetrics o n).length ∧
    (combosExplore o n).Nodup ∧
    (∀ k, k ∈ combosExplore o n ↔ k ∈ keyVals o ∨ k ∈ keyVals n) ∧
    (exploreMetrics o n).Nodup ∧
    (∀ c, c ∈ exploreMetrics o n ↔
      (c ∈ o.cols ∨ c ∈ n.cols) ∧ c ∉ skip_cols) ∧
    (∀ k m, k ∈ combosExplore o n → m ∈ exploreMetrics o n →
      mkWideRow o n k m ∈ process_explore_section o n) ∧
    (∀ k m, m ∉ o.cols → (mkWideRow o n k m).Old = Val.s "N/A") := by
  refine ⟨?_, ?_, ?_, ?_, ?_, ?_, ?_⟩
  · simp only [process_explore_section]
    rw [List.length_flatten, List.map_map]
    simp only [Function.comp_def, List.length_map]
    rw [List.map_const', List.sum_replicate, smul_eq_mul]
  · exact nodup_outerUnion _ _ (nodup_dedupFirst _) (nodup_dedupFirst _)
  · intro k
    unfold combosExplore
    rw [mem_outerUnion, mem_dedupFirst, mem_dedupFirst]
  · exact (nodup_dedupFirst _).filter _
  · intro c
    unfold exploreMetrics
    rw [List.mem_filter, mem_dedupFirst, List.mem_append]
    simp
  · intro k m hk hm
    simp only [process_explore_section]
    rw [List.mem_flatten]
    exact ⟨(exploreMetrics o n).map (mkWideRow o n k),
      List.mem_map.mpr ⟨k, hk, rfl⟩, List.mem_map.mpr ⟨m, hm, rfl⟩⟩
  · intro k m hmo
    simp only [mkWideRow]
    rw [rawWide_of_not_col o k m hmo,
      compare_values_parse_fail _ _ _ (Or.inl pyFloat_NA)]
    rfl

theorem process_explore_section_spec_witness :
    mkWideRow
      (Table.mk ["collection_time", "org_url", "KEY", "A"]
        [[("collection_time", "2025-03-24 10:00:00"), ("org_url", "u"),
          ("KEY", "2024"), ("A", "1")]])
      (Table.mk ["collection_time", "org_url", "KEY", "A", "B"]
        [[("collection_time", "2025-03-25 10:00:00"), ("org_url", "u"),
          ("KEY", "2024"), ("A", "2"), ("B", "7")]])
      (some "2024") "B" ∈
    process_explore_section
      (Table.mk ["collection_time", "org_url", "KEY", "A"]
        [[("collection_time", "2025-03-24 10:00:00"), ("org_url", "u"),
          ("KEY", "2024"), ("A", "1")]])
      (Table.mk ["collection_time", "org_url", "KEY", "A", "B"]
        [[("collection_time", "2025-03-25 10:00:00"), ("org_url", "u"),
          ("KEY", "2024"), ("A", "2"), ("B", "7")]]) :=
  (process_explore_section_spec _ _).2.2.2.2.2.1 (some "2024") "B"
    (by decide) (by decide)

/-! ## C6 -/

/-- C6 counterexample: with no old row and the new table storing the string
    "500" for metric "Mean APC amount", the keyed merge result row carries
    the raw text "500" as New — not the number 500.0 as the claim states:
    parsing the substituted old value "N/A" raises first, so the new value
    is never parsed and is passed through by the except branch. -/
theorem keyed_missing_old_counterexample :
    process_rows_by_key
      (Table.mk ["strategy", "date_range", "Value"] [])
      (Table.mk ["strategy", "date_range", "Value"]
        [[("strategy", "Mean APC amount"), ("date_range", "2024"),
          ("Value", "500")]])
      "strategy" "date_range" =
      [ResultRow.mk "2024" "Mean APC amount" (Val.s "N/A") (Val.s "500")
        (Val.s "N/A") (Val.s "N/A")] ∧
    Val.s "500" ≠ Val.f (PyF.fin 500) := by
  refine ⟨by decide, by decide⟩

/-- C6 (amended): with no old row and new value stored as "500", the merger
    invokes the comparator with the explicit raw input "N/A" substituted for
    the missing side, and the result row is Old = "N/A", New = the raw
    string "500" passed through, Change and percent change "N/A". -/
theorem keyed_missing_old_passthrough :
    rawSide (renameValueCol (Table.mk ["strategy", "date_range", "Value"] []))
      "strategy" "date_range" (some "Mean APC amount", some "2024") =
      some "N/A" ∧
    process_rows_by_key
      (Table.mk ["strategy", "date_range", "Value"] [])
      (Table.mk ["strategy", "date_range", "Value"]
        [[("strategy", "Mean APC amount"), ("date_range", "2024"),
          ("Value", "500")]])
      "strategy" "date_range" =
      [ResultRow.mk "2024" "Mean APC amount" (Val.s "N/A") (Val.s "500")
        (Val.s "N/A") (Val.s "N/A")] := by
  refine ⟨by decide, by decide⟩

/-! ## C7 -/

/-- A percent value below the 1e-9 threshold in magnitude is never at least
    1 in magnitude (the two styling branches are mutually exclusive). -/
theorem not_le_one_of_lt_eps9 (x : PyF) (h : x.lt (PyF.fin eps9) = true) :
    PyF.le (PyF.fin 1) x = false := by
  cases x with
  | fin q =>
    simp only [PyF.lt, decide_eq_true_eq] at h
    simp only [PyF.le, decide_eq_false_iff_not]
    have he : eps9 < 1 := by rw [eps9, Rat.mkRat_eq_div]; norm_num
    intro hle
    linarith
  | pinf => simp [PyF.lt] at h
  | ninf => simp [PyF.le]
  | nan => simp [PyF.le]

/-- Per-cell characterization of `styleRow`. -/
theorem styleRow_spec (c : Cell) :
    ((styleRow c).pctFont = some FontMark.redFont ↔
      ∃ v, cellFloat c = some v ∧ v.abs.lt (PyF.fin eps9) = true) ∧
    (((styleRow c).changeFont = some FontMark.boldFont ∧
      (styleRow c).pctFont = some FontMark.boldFont) ↔
      ∃ v, cellFloat c = some v ∧ PyF.le (PyF.fin 1) v.abs = true) ∧
    (styleRow c).changeFill = true ∧ (styleRow c).pctFill = true ∧
    (cellFloat c = none →
      (styleRow c).changeFont = none ∧ (styleRow c).pctFont = none) := by
  unfold styleRow
  cases hcf : cellFloat c with
  | none => simp
  | some v =>
    by_cases h1 : v.abs.lt (PyF.fin eps9) = true
    · have h2 := not_le_one_of_lt_eps9 v.abs h1
      simp [h1, h2]
    · by_cases h2 : PyF.le (PyF.fin 1) v.abs = true
      · simp [h1, h2]
      · simp only [Bool.not_eq_true] at h1 h2
        simp [h1, h2]

/-- C7 counterexample: a percent-change cell holding the text "inf" is not
    left unstyled beyond the fill: `float("inf")` succeeds, its magnitude is
    at least 1, and both cells receive the emphasis font. -/
theorem apply_styling_inf_counterexample :
    apply_styling [SheetRow.mk (Cell.text "2024") (Cell.text "m")
      (Cell.text "N/A") (Cell.text "5") (Cell.text "N/A")
      (Cell.text "inf")] =
      [CellStyle.mk (some FontMark.boldFont) (some FontMark.boldFont)
        true true] ∧
    some FontMark.boldFont ≠ (none : Option FontMark) := by
  refine ⟨by decide, by decide⟩

/-- C7 (amended): for every data row of every sheet, the styling pass marks
    the percent cell in the no-change style exactly when its value parses
    with magnitude below 1e-9, marks both cells in the emphasis style
    exactly when the parsed magnitude is at least 1 (which includes the text
    "inf", whose parse succeeds as infinity), applies the neutral fill
    unconditionally, and leaves cells whose value fails numeric parsing
    (such as "N/A") unstyled beyond the fill. -/
theorem apply_styling_spec (ws : List SheetRow) (i : ℕ) (h : i < ws.length) :
    ∃ h2 : i < (apply_styling ws).length,
      (apply_styling ws).get ⟨i, h2⟩ = styleRow ((ws.get ⟨i, h⟩).pctCell) ∧
      (((apply_styling ws).get ⟨i, h2⟩).pctFont = some FontMark.redFont ↔
        ∃ v, cellFloat ((ws.get ⟨i, h⟩).pctCell) = some v ∧
          v.abs.lt (PyF.fin eps9) = true) ∧
      ((((apply_styling ws).get ⟨i, h2⟩).changeFont = some FontMark.boldFont ∧
        ((apply_styling ws).get ⟨i, h2⟩).pctFont = some FontMark.boldFont) ↔
        ∃ v, cellFloat ((ws.get ⟨i, h⟩).pctCell) = some v ∧
          PyF.le (PyF.fin 1) v.abs = true) ∧
      ((apply_styling ws).get ⟨i, h2⟩).changeFill = true ∧
      ((apply_styling ws).get ⟨i, h2⟩).pctFill = true ∧
      (cellFloat ((ws.get ⟨i, h⟩).pctCell) = none →
        ((apply_styling ws).get ⟨i, h2⟩).changeFont = none ∧
        ((apply_styling ws).get ⟨i, h2⟩).pctFont = none) := by
  have h2 : i < (apply_styling ws).length := by
    simpa [apply_styling] using h
  refine ⟨h2, ?_⟩
  have hget : (apply_styling ws).get ⟨i, h2⟩ =
      styleRow ((ws.get ⟨i, h⟩).pctCell) := by
    simp [apply_styling]
  rw [hget]
  exact ⟨rfl, styleRow_spec ((ws.get ⟨i, h⟩).pctCell)⟩

theorem apply_styling_spec_witness :
    ((apply_styling [SheetRow.mk (Cell.text "2024") (Cell.text "m")
      (Cell.num 1) (Cell.num 1) (Cell.num 0) (Cell.num 0)]).get
        ⟨0, by decide⟩).pctFont = some FontMark.redFont := by
  obtain ⟨h2, hget, hred, _⟩ := apply_styling_spec
    [SheetRow.mk (Cell.text "2024") (Cell.text "m")
      (Cell.num 1) (Cell.num 1) (Cell.num 0) (Cell.num 0)] 0 (by decide)
  exact (congrArg CellStyle.pctFont hget).trans (by decide)

/-! ## C9 -/

/-- `List.mapM` over `Option` succeeds when every element succeeds. -/
theorem mapM_option_isSome {α β : Type} (f : α → Option β) (l : List α)
    (h : ∀ a ∈ l, (f a).isSome) : (l.mapM f).isSome := by
  induction l with
  | nil => rfl
  | cons a as ih =>
    rw [List.mapM_cons]
    have ha := h a (List.mem_cons_self a as)
    cases hfa : f a with
    | none => rw [hfa] at ha; simp at ha
    | some b =>
      have has : (as.mapM f).isSome :=
        ih (fun x hx => h x (List.mem_cons_of_mem a hx))
      cases hmas : as.mapM f with
      | none => rw [hmas] at has; simp at has
      | some bs => simp [hfa, hmas]

/-- C9 counterexample: a row whose URL does not contain the `.report/`
    marker is not excluded with a diagnostic — `extract_org_from_url`
    raises an uncaught IndexError (modelled `none`), so the section's
    processing does not complete. -/
theorem process_section_core_raises_counterexample :
    process_section_core "insights"
      (Table.mk ["org_url", "collection_time", "Insight", "date_range",
        "Value"]
        [[("org_url", "https://example.com/foo"),
          ("collection_time", "2025-03-24 10:00:00"),
          ("Insight", "m"), ("date_range", "d"), ("Value", "1")]])
      "2025-03-24" "2025-03-25" = none := by decide

/-- C9 (amended): processing a loaded section table completes without
    raising provided every row's URL in the chosen URL-bearing column is
    present and contains the dashboard marker (so that organization
    extraction succeeds); a table with no recognized URL-bearing column is
    skipped with a diagnostic (also without raising).  A row violating the
    URL condition makes the run fail (see the counterexample). -/
theorem process_section_core_total (sec : String) (df : Table)
    (d1 d2 : String)
    (hurl : ∀ c, pickUrlCol df = some c → ∀ r ∈ df.rows,
      ∃ u, cellOf r c = some u ∧ (extract_org_from_url u).isSome) :
    (process_section_core sec df d1 d2).isSome := by
  unfold process_section_core
  cases hpick : pickUrlCol df with
  | none => simp
  | some c =>
    have hm : (df.rows.mapM (fun r => do
        let u ← cellOf r c
        let org ← extract_org_from_url u
        pure (r ++ [("org", org)]))).isSome := by
      apply mapM_option_isSome
      intro r hr
      obtain ⟨u, hu, hex⟩ := hurl c hpick r hr
      rw [hu]
      show ((extract_org_from_url u).bind
        fun org => some (r ++ [("org", org)])).isSome = true
      cases hexo : extract_org_from_url u with
      | none => rw [hexo] at hex; simp at hex
      | some org => rfl
    have hattach : (attachOrg df c).isSome := by
      unfold attachOrg
      obtain ⟨rows, hrows⟩ := Option.isSome_iff_exists.mp hm
      rw [hrows]
      rfl
    obtain ⟨df2, hdf2⟩ := Option.isSome_iff_exists.mp hattach
    dsimp only
    rw [hdf2]
    rfl

theorem process_section_core_total_witness :
    (process_section_core "insights"
      (Table.mk ["org_url", "collection_time", "Insight", "date_range",
        "Value"]
        [[("org_url", "https://dev.oa.report/hhmi?orgkey=k"),
          ("collection_time", "2025-03-24 10:00:00"),
          ("Insight", "m"), ("date_range", "d"), ("Value", "1")]])
      "2025-03-24" "2025-03-25").isSome := by
  refine process_section_core_total "insights" _ "2025-03-24" "2025-03-25" ?_
  intro c hc r hr
  have hpick : pickUrlCol (Table.mk ["org_url", "collection_time", "Insight",
      "date_range", "Value"]
      [[("org_url", "https://dev.oa.report/hhmi?orgkey=k"),
        ("collection_time", "2025-03-24 10:00:00"),
        ("Insight", "m"), ("date_range", "d"), ("Value", "1")]]) =
      some "org_url" := by decide
  rw [hpick] at hc
  have hceq : c = "org_url" := (Option.some.inj hc).symm
  subst hceq
  have hrow : r = [("org_url", "https://dev.oa.report/hhmi?orgkey=k"),
      ("collection_time", "2025-03-24 10:00:00"),
      ("Insight", "m"), ("date_range", "d"), ("Value", "1")] := by
    simpa using hr
  subst hrow
  exact ⟨"https://dev.oa.report/hhmi?orgkey=k", by decide, by decide⟩

/-! ## C10 -/

/-- A metric column that holds the same value in every row of a table
    contributes that value for any key actually present in the table. -/
theorem rawWide_of_const_col (t : Table) (kv m v : String)
    (hm : m ∈ t.cols) (hall : ∀ r ∈ t.rows, cellOf r m = some v)
    (hk : some kv ∈ keyVals t) :
    rawWide t (some kv) m = some v := by
  obtain ⟨r, hr, hcell⟩ := List.mem_map.mp hk
  have hmatch : pdEq (cellOf r "KEY") (some kv) = true := by
    rw [hcell]
    simp [pdEq]
  have hne : t.rows.filter (fun r => pdEq (cellOf r "KEY") (some kv)) ≠ [] := by
    intro hnil
    have hmem : r ∈ t.rows.filter (fun r => pdEq (cellOf r "KEY") (some kv)) :=
      List.mem_filter.mpr ⟨hr, hmatch⟩
    rw [hnil] at hmem
    exact absurd hmem (List.not_mem_nil r)
  cases hfil : t.rows.filter (fun r => pdEq (cellOf r "KEY") (some kv)) with
  | nil => exact absurd hfil hne
  | cons r0 rest =>
    have hr0fil : r0 ∈ t.rows.filter (fun r => pdEq (cellOf r "KEY") (some kv)) := by
      rw [hfil]
      exact List.mem_cons_self r0 rest
    have hr0 : r0 ∈ t.rows := (List.mem_filter.mp hr0fil).1
    simp only [rawWide, hfil]
    rw [if_pos hm]
    exact hall r0 hr0

/-- C10 counterexample: an explore table whose only data falls on the new
    date yields, for the key present only in the new slice, a derived-org
    result row whose Old side is "N/A" — it does not carry the organization
    slug on both sides as the claim states. -/
theorem explore_org_row_counterexample :
    process_section_core "explore"
      (Table.mk ["collection_time", "org_url", "KEY", "PUBLICATIONS"]
        [[("collection_time", "2025-03-25 10:00:00"),
          ("org_url", "https://dev.oa.report/gates-foundation?orgkey=k"),
          ("KEY", "2024"), ("PUBLICATIONS", "10")]])
      "2025-03-24" "2025-03-25" =
      some [("gates-foundation",
        [ResultRow.mk "2024" "PUBLICATIONS" (Val.s "N/A") (Val.s "10")
          (Val.s "N/A") (Val.s "N/A"),
         ResultRow.mk "2024" "org" (Val.s "N/A") (Val.s "gates-foundation")
          (Val.s "N/A") (Val.s "N/A")])] ∧
    Val.s "N/A" ≠ Val.s "gates-foundation" := by
  refine ⟨by decide, by decide⟩

/-- C10 (amended): the derived `org` column is not in the wide merger's
    exclusion set, so it is treated as a metric; for tables whose `org`
    column constantly holds a (non-numeric) slug — as produced by
    `process_section` for each organization's subset — every key present in
    both slices yields an additional result row with METRIC = "org", Old and
    New the slug, and Change / percent change "N/A".  (A key present in only
    one slice renders the missing side "N/A", as the counterexample shows.) -/
theorem process_explore_section_org_row (o n : Table) (slug kv : String)
    (ho : "org" ∈ o.cols) (hn2 : "org" ∈ n.cols)
    (hro : ∀ r ∈ o.rows, cellOf r "org" = some slug)
    (hrn : ∀ r ∈ n.rows, cellOf r "org" = some slug)
    (hslug : pyFloat (stripNum (pyStr (some slug))) = none)
    (hko : some kv ∈ keyVals o) (hkn : some kv ∈ keyVals n) :
    "org" ∈ exploreMetrics o n ∧
    mkWideRow o n (some kv) "org" =
      ResultRow.mk kv "org" (Val.s slug) (Val.s slug)
        (Val.s "N/A") (Val.s "N/A") ∧
    mkWideRow o n (some kv) "org" ∈ process_explore_section o n := by
  have hmet : "org" ∈ exploreMetrics o n := by
    unfold exploreMetrics
    rw [List.mem_filter, mem_dedupFirst, List.mem_append]
    exact ⟨Or.inl ho, by decide⟩
  have hrawo : rawWide o (some kv) "org" = some slug :=
    rawWide_of_const_col o kv "org" slug ho hro hko
  have hrawn : rawWide n (some kv) "org" = some slug :=
    rawWide_of_const_col n kv "org" slug hn2 hrn hkn
  refine ⟨hmet, ?_, ?_⟩
  · simp only [mkWideRow]
    rw [hrawo, hrawn, compare_values_parse_fail _ _ _ (Or.inl hslug)]
    rfl
  · simp only [process_explore_section]
    rw [List.mem_flatten]
    refine ⟨(exploreMetrics o n).map (mkWideRow o n (some kv)),
      List.mem_map.mpr ⟨some kv, ?_, rfl⟩, List.mem_map.mpr ⟨"org", hmet, rfl⟩⟩
    unfold combosExplore
    rw [mem_outerUnion, mem_dedupFirst]
    exact Or.inl hko

theorem process_explore_section_org_row_witness :
    mkWideRow (Table.mk ["KEY", "org"] [[("KEY", "2024"), ("org", "hhmi")]])
      (Table.mk ["KEY", "org"] [[("KEY", "2024"), ("org", "hhmi")]])
      (some "2024") "org" =
      ResultRow.mk "2024" "org" (Val.s "hhmi") (Val.s "hhmi")
        (Val.s "N/A") (Val.s "N/A") ∧
    mkWideRow (Table.mk ["KEY", "org"] [[("KEY", "2024"), ("org", "hhmi")]])
      (Table.mk ["KEY", "org"] [[("KEY", "2024"), ("org", "hhmi")]])
      (some "2024") "org" ∈
      process_explore_section
        (Table.mk ["KEY", "org"] [[("KEY", "2024"), ("org", "hhmi")]])
        (Table.mk ["KEY", "org"] [[("KEY", "2024"), ("org", "hhmi")]]) := by
  have h := process_explore_section_org_row
    (Table.mk ["KEY", "org"] [[("KEY", "2024"), ("org", "hhmi")]])
    (Table.mk ["KEY", "org"] [[("KEY", "2024"), ("org", "hhmi")]])
    "hhmi" "2024" (by decide) (by decide) (by decide) (by decide)
    (by decide) (by decide) (by decide)
  exact ⟨h.2.1, h.2.2⟩

end OAReport
